import Mathlib

/-!
Verification of the Tinkercad serial ↔ MQTT bridge (`mqtt-bridge-v1.js`).

The development shallowly embeds the two behavioural cores of the script:

* the poll tick (`setInterval` callback): snapshot diffing against `lastData`,
  line splitting on `/\r?\n/`, `slice(-10)`, per-line trim / `split(/\s+/)` /
  rejoin, and publish dispatch;
* the inbound `client.on("message")` handler: frame routing by the `/editel`
  URL substring, selection of the last text-entry element, and the
  triple-click / backspace / type / enter injection sequence, with the
  surrounding try/catch.

Strings are modelled as Lean `String`s / `List Char`; JavaScript truthiness of
a string is emptiness; thrown exceptions in the inbound handler are modelled by
explicit failure points in the page model, caught exactly where the source
catches them.
-/

namespace MqttBridge

/-- The characters that both JS `String.prototype.trim` and the regex class
`\s` treat as whitespace, restricted to the ASCII range that can occur in
serial-monitor text (space, tab, LF, CR, vertical tab, form feed). -/
def jsWhitespace (c : Char) : Bool :=
  c = ' ' || c = '\t' || c = '\n' || c = '\r' || c = '\x0b' || c = '\x0c'

/-- `text.split(/\r?\n/)` from line 90: a boundary is either `"\r\n"` or a bare
`"\n"`; a carriage return not followed by a line feed is ordinary content. -/
def splitRN : List Char → List (List Char)
  | [] => [[]]
  | '\r' :: '\n' :: rest => [] :: splitRN rest
  | '\n' :: rest => [] :: splitRN rest
  | c :: rest =>
    match splitRN rest with
    | [] => [[c]]
    | l :: ls => (c :: l) :: ls

/-- `line.trim()`: drop leading and trailing whitespace. -/
def jsTrim (l : List Char) : List Char :=
  ((l.dropWhile jsWhitespace).reverse.dropWhile jsWhitespace).reverse

/-- Does the list start with a whitespace character? -/
def startsWs : List Char → Bool
  | [] => false
  | d :: _ => jsWhitespace d

/-- `s.split(/\s+/)` from line 95: split at each maximal nonempty run of
whitespace.  As in JS, leading (resp. trailing) whitespace produces an empty
first (resp. last) fragment, and the empty string yields `[""]`.  A whitespace
character extends the run that the rest of the string already starts with, so
it contributes a new boundary only when the rest does not start with
whitespace. -/
def splitWs : List Char → List (List Char)
  | [] => [[]]
  | c :: rest =>
    if jsWhitespace c then
      if startsWs rest then splitWs rest else [] :: splitWs rest
    else
      match splitWs rest with
      | [] => [[c]]
      | l :: ls => (c :: l) :: ls

/-- A parsed `(topic, payload)` pair, one per well-formed snapshot line. -/
structure Record where
  topic : String
  payload : String
deriving DecidableEq, Repr

/-- Lines 93–99 of the poll callback, for one line of the snapshot:
skip the line when its trim is empty, split the trimmed line on `/\s+/`,
skip when there are fewer than 2 parts, otherwise the first part is the
topic and the remaining parts rejoined with single spaces are the payload. -/
def parseLine (line : List Char) : Option Record :=
  let t := jsTrim line
  if t.isEmpty then none
  else
    match splitWs t with
    | p0 :: p1 :: ps =>
      some ⟨String.mk p0, String.mk (List.intercalate [' '] (p1 :: ps))⟩
    | _ => none

/-- `text.split(/\r?\n/).slice(-10)` (line 90): the last ten lines of the
snapshot (all of them when there are at most ten). -/
def retainedLines (text : String) : List (List Char) :=
  let ls := splitRN text.data
  ls.drop (ls.length - 10)

/-- All records produced by one changed snapshot, in source-line order:
the loop of lines 92–103 over the retained lines. -/
def parseSnapshot (text : String) : List Record :=
  (retainedLines text).filterMap parseLine

/-- Result of one poll tick: the value of `lastData` afterwards and the
records published during the tick, in publish order. -/
structure TickResult where
  newLast : String
  published : List Record
deriving DecidableEq, Repr

/-- Lines 83–103: the body of the `setInterval` callback, given the current
`lastData` and the freshly extracted snapshot `text`.  `!text` for a JS string
is emptiness, and the comparison with `lastData` is exact string equality. -/
def pollTick (lastData text : String) : TickResult :=
  if text = "" || text = lastData then ⟨lastData, []⟩
  else ⟨text, parseSnapshot text⟩

/-- One observable step of the tick body, in execution order. -/
inductive TickOp where
  | assignLast (s : String)
  | publish (r : Record)
deriving DecidableEq, Repr

/-- The sequence of state-changing operations one tick performs, in program
order: on an unchanged (or empty) snapshot nothing happens; on a changed one,
`lastData = text` (line 88) executes first, then one publish per record. -/
def tickTrace (lastData text : String) : List TickOp :=
  if text = "" || text = lastData then []
  else TickOp.assignLast text :: (parseSnapshot text).map TickOp.publish

/-! ### Startup argument parsing (lines 23–27) -/

/-- The configuration the script runs with when the URL argument is present. -/
structure Config where
  url : String
  broker : String
  port : String
deriving DecidableEq, Repr

/-- What the top of the script does: either exit with a status code after
printing the usage line, or proceed with a configuration. -/
inductive StartupResult where
  | exit (code : Nat) (message : String)
  | run (cfg : Config)
deriving DecidableEq, Repr

/-- Lines 23–27: `const [,, URL, BROKER = "localhost", PORT = "1883"] =
process.argv` followed by `if (!URL) { console.error(usage); process.exit(1) }`.
`argv.[0]` is the node executable and `argv.[1]` the script path; destructuring
defaults apply exactly when the slot is absent (`undefined`), and `!URL` also
holds for a present-but-empty string. -/
def startup (argv : List String) : StartupResult :=
  let url? := argv.get? 2
  let broker := (argv.get? 3).getD "localhost"
  let port := (argv.get? 4).getD "1883"
  match url? with
  | none =>
    .exit 1 "Usage: node mqtt-bridge_v2.js \"<tinkercad-url>\" [broker] [port]"
  | some u =>
    if u = "" then
      .exit 1 "Usage: node mqtt-bridge_v2.js \"<tinkercad-url>\" [broker] [port]"
    else .run ⟨u, broker, port⟩

/-! ### Inbound message handling (lines 112–149) -/

/-- Does `l` contain `sub` as a contiguous subsequence?  Models JS
`String.prototype.includes`. -/
def startsWithSeq : List Char → List Char → Bool
  | [], _ => true
  | _ :: _, [] => false
  | c :: cs, d :: ds => c = d && startsWithSeq cs ds

/-- `l.includes(sub)` on the character lists. -/
def containsSeq (sub : List Char) : List Char → Bool
  | [] => startsWithSeq sub []
  | d :: ds => startsWithSeq sub (d :: ds) || containsSeq sub ds

/-- One navigable frame of the page, as the inbound handler sees it: its URL,
the current contents of its text-entry elements (`textarea, input[type='text']`)
in document order, whether the `$$` element query throws for it, and — when
`failAt = some k` — that the `k`-th injection step (0-based, of the four awaits
in lines 134–137) throws. -/
structure Frame where
  url : String
  textInputs : List String
  queryThrow : Bool
  failAt : Option (Fin 4)

/-- The browser page as the handler sees it: its frames, and whether
`page.frames()` itself throws. -/
structure Page where
  frames : List Frame
  framesThrow : Bool

/-- The four simulated-keyboard steps of lines 134–137. -/
inductive InjAction where
  | tripleClick
  | backspace
  | typeText (s : String)
  | enter
deriving DecidableEq, Repr

/-- The exact sequence the handler performs on the selected element:
`click({clickCount: 3})`, `keyboard.press("Backspace")`, `type(msg)`,
`keyboard.press("Enter")`. -/
def injectionSequence (msg : String) : List InjAction :=
  [.tripleClick, .backspace, .typeText msg, .enter]

/-- State of a text-entry element: its content and whether all of it is
currently selected (a triple-click selects the whole content; typing or
deleting collapses the selection, with the caret at the end). -/
structure ElemState where
  content : String
  selectedAll : Bool
deriving DecidableEq, Repr

/-- Browser semantics of one injection step on the element: a triple-click
selects all content; backspace deletes the selection if there is one and
otherwise the character before the caret; typing replaces the selection if
there is one and otherwise inserts at the caret; enter submits the current
content, leaving it in place.  The second component lists the contents
submitted by this step. -/
def stepAction (st : ElemState) : InjAction → ElemState × List String
  | .tripleClick => (⟨st.content, true⟩, [])
  | .backspace =>
    if st.selectedAll then (⟨"", false⟩, [])
    else (⟨String.mk st.content.data.dropLast, false⟩, [])
  | .typeText s =>
    if st.selectedAll then (⟨s, false⟩, [])
    else (⟨st.content ++ s, false⟩, [])
  | .enter => (⟨st.content, st.selectedAll⟩, [st.content])

/-- Run a sequence of injection steps, collecting the submitted contents in
order. -/
def runActions (st : ElemState) : List InjAction → ElemState × List String
  | [] => (st, [])
  | a :: rest =>
    let r := stepAction st a
    let r2 := runActions r.1 rest
    (r2.1, r.2 ++ r2.2)

/-- How one inbound event ends, mirroring the handler's branches: the editor
frame was not found (line 126), no text input existed (line 144), an exception
was caught by the `catch` (line 146), or the injection completed (line 139). -/
inductive Outcome where
  | frameNotFound
  | inputNotFound
  | errorCaught
  | sent
deriving DecidableEq, Repr

/-- Everything observable about the handling of one inbound event: the
injection steps actually performed on the target, the document-order index of
the targeted element (when one was selected), its state afterwards, the
contents submitted to the simulator, the outcome, and the log line the
handler prints for it. -/
structure HandlerResult where
  performed : List InjAction
  targetIdx : Option Nat
  finalElem : Option ElemState
  submitted : List String
  outcome : Outcome
  log : String
deriving Repr

/-- Line 121–123: `frames.find(f => f.url().includes("/editel"))` — the first
frame whose URL contains the fixed substring. -/
def findTargetFrame (frames : List Frame) : Option Frame :=
  frames.find? (fun f => containsSeq "/editel".data f.url.data)

/-- Lines 112–149: the `client.on("message")` callback for one event with
decoded payload `msg`.  The whole body sits in a try/catch, so a throw at any
point (modelled by `framesThrow`, `queryThrow`, `failAt`) is caught and turned
into the error log line; a missing frame or missing input returns early with
its own log line and no injection. -/
def handleMessage (page : Page) (msg : String) : HandlerResult :=
  if page.framesThrow then
    ⟨[], none, none, [], .errorCaught, "⚠️ Error sending to Tinkercad serial:"⟩
  else
    match findTargetFrame page.frames with
    | none =>
      ⟨[], none, none, [], .frameNotFound,
        "⚠️ Could not locate the Tinkercad editor frame."⟩
    | some f =>
      if f.queryThrow then
        ⟨[], none, none, [], .errorCaught, "⚠️ Error sending to Tinkercad serial:"⟩
      else
        match f.textInputs.getLast? with
        | none =>
          ⟨[], none, none, [], .inputNotFound,
            "⚠️ Serial input box not found — please keep Serial Monitor open."⟩
        | some el =>
          let idx := f.textInputs.length - 1
          match f.failAt with
          | some k =>
            let acts := (injectionSequence msg).take k.val
            let r := runActions ⟨el, false⟩ acts
            ⟨acts, some idx, some r.1, r.2, .errorCaught,
              "⚠️ Error sending to Tinkercad serial:"⟩
          | none =>
            let r := runActions ⟨el, false⟩ (injectionSequence msg)
            ⟨injectionSequence msg, some idx, some r.1, r.2, .sent,
              "↩ Sent to Tinkercad Serial: " ++ msg⟩

/-! ### Specification-side parser (for the refinement claim C1)

These definitions follow the spec's own words for §4.2 (LineParser): «Split the
trimmed line on runs of whitespace. If fewer than 2 tokens, discard the line;
first token is `topic`; remaining tokens rejoined with single spaces form
`payload`».  Tokens are computed by a different mechanism (`List.splitOnP`,
dropping empty fragments) so that agreement with the source-side `parseLine`
is a real statement. -/

/-- The whitespace-separated tokens of a line, as the spec describes them:
the maximal whitespace-free fragments. -/
def specTokens (l : List Char) : List (List Char) :=
  (l.splitOnP jsWhitespace).filter (· ≠ [])

/-- The spec's per-line parse: trim, tokenize, require at least two tokens,
first token is the topic, the rest rejoined with single spaces the payload. -/
def specParseLine (line : List Char) : Option Record :=
  match specTokens (jsTrim line) with
  | t :: p :: ps => some ⟨String.mk t, String.mk (List.intercalate [' '] (p :: ps))⟩
  | _ => none

/-! ### Basic lemmas about the splitters -/

theorem splitRN_nil : splitRN [] = [[]] := rfl

theorem splitRN_crlf (rest : List Char) :
    splitRN ('\r' :: '\n' :: rest) = [] :: splitRN rest := rfl

theorem splitRN_lf (rest : List Char) :
    splitRN ('\n' :: rest) = [] :: splitRN rest := rfl

theorem splitRN_cons_other (c : Char) (rest l : List Char) (ls : List (List Char))
    (h1 : ∀ r : List Char, c = '\r' → rest = '\n' :: r → False) (h2 : c ≠ '\n')
    (heq : splitRN rest = l :: ls) :
    splitRN (c :: rest) = (c :: l) :: ls := by
  rw [splitRN.eq_def]
  split
  · simp_all
  · rename_i r hy
    injection hy with hc ha
    exact absurd ha (fun h => h1 r hc h)
  · rename_i r hy
    injection hy with hc ha
    exact absurd hc h2
  · rename_i x c' a hb hx hy
    injection hy with hc ha
    subst hc
    subst ha
    rw [heq]

theorem splitRN_ne_nil : ∀ l : List Char, splitRN l ≠ [] := by
  intro l
  induction l using splitRN.induct with
  | case1 => simp [splitRN_nil]
  | case2 rest ih => simp [splitRN_crlf]
  | case3 rest ih => simp [splitRN_lf]
  | case4 c rest h1 h2 hnil ih => exact absurd hnil ih
  | case5 c rest h1 h2 l ls heq ih =>
    rw [splitRN_cons_other c rest l ls h1 (fun h => h2 h) heq]
    simp

theorem splitRN_no_lf : ∀ l : List Char, '\n' ∉ l → splitRN l = [l] := by
  intro l
  induction l using splitRN.induct with
  | case1 => intro _; rfl
  | case2 rest ih => intro h; simp at h
  | case3 rest ih => intro h; simp at h
  | case4 c rest h1 h2 hnil ih => exact absurd hnil (splitRN_ne_nil rest)
  | case5 c rest h1 h2 l ls heq ih =>
    intro h
    have hrest : '\n' ∉ rest := fun hm => h (List.mem_cons_of_mem _ hm)
    have h' : l :: ls = [rest] := heq ▸ ih hrest
    injection h' with hl hls
    rw [splitRN_cons_other c rest l ls h1 (fun hc => h2 hc) heq, hl, hls]

theorem splitRN_append_lf : ∀ a b : List Char, '\n' ∉ a → a.getLast? ≠ some '\r' →
    splitRN (a ++ '\n' :: b) = a :: splitRN b := by
  intro a
  induction a with
  | nil => intro b _ _; exact splitRN_lf b
  | cons c a' ih =>
    intro b h hlast
    have hc : c ≠ '\n' := fun hcc => h (hcc ▸ List.mem_cons_self c a')
    have hna : '\n' ∉ a' := fun hm => h (List.mem_cons_of_mem _ hm)
    cases ha' : a' with
    | nil =>
      have hcr : c ≠ '\r' := fun hh => hlast (by simp [ha', hh])
      subst ha'
      rw [List.cons_append, List.nil_append,
        splitRN_cons_other c ('\n' :: b) [] (splitRN b)
          (fun r hcrr _ => hcr hcrr) hc (splitRN_lf b)]
    | cons d a'' =>
      subst ha'
      have hlast' : (d :: a'').getLast? ≠ some '\r' := by
        rwa [List.getLast?_cons_cons] at hlast
      have ih' := ih b hna hlast'
      rw [List.cons_append,
        splitRN_cons_other c ((d :: a'') ++ '\n' :: b) (d :: a'') (splitRN b)
          ?hno hc ih']
      case hno =>
        intro r _ hbad
        rw [List.cons_append] at hbad
        injection hbad with hd _
        exact hna (hd ▸ List.mem_cons_self d a'')

theorem splitRN_append_crlf : ∀ a b : List Char, '\n' ∉ a →
    splitRN (a ++ '\r' :: '\n' :: b) = a :: splitRN b := by
  intro a
  induction a with
  | nil => intro b _; exact splitRN_crlf b
  | cons c a' ih =>
    intro b h
    have hc : c ≠ '\n' := fun hcc => h (hcc ▸ List.mem_cons_self c a')
    have hna : '\n' ∉ a' := fun hm => h (List.mem_cons_of_mem _ hm)
    have ih' := ih b hna
    rw [List.cons_append,
      splitRN_cons_other c (a' ++ '\r' :: '\n' :: b) a' (splitRN b) ?hno hc ih']
    case hno =>
      intro r _ hbad
      cases a' with
      | nil => simp at hbad
      | cons d a'' =>
        rw [List.cons_append] at hbad
        injection hbad with hd _
        exact hna (hd ▸ List.mem_cons_self d a'')

theorem splitWs_ne_nil : ∀ l : List Char, splitWs l ≠ [] := by
  intro l
  induction l using splitWs.induct with
  | case1 => simp [splitWs]
  | case2 c rest hc hs ih => simpa [splitWs, hc, hs] using ih
  | case3 c rest hc hs ih => simp [splitWs, hc, hs]
  | case4 c rest hc hnil ih => exact absurd hnil ih
  | case5 c rest hc l ls heq ih => simp [splitWs, hc, heq]

theorem splitWs_nil : splitWs [] = [[]] := rfl

theorem splitWs_cons_ws_run (c : Char) (rest : List Char) (hc : jsWhitespace c = true)
    (hs : startsWs rest = true) : splitWs (c :: rest) = splitWs rest := by
  simp [splitWs, hc, hs]

theorem splitWs_cons_ws_new (c : Char) (rest : List Char) (hc : jsWhitespace c = true)
    (hs : startsWs rest = false) : splitWs (c :: rest) = [] :: splitWs rest := by
  simp [splitWs, hc, hs]

theorem splitWs_cons_tok (c : Char) (rest l : List Char) (ls : List (List Char))
    (hc : jsWhitespace c = false) (heq : splitWs rest = l :: ls) :
    splitWs (c :: rest) = (c :: l) :: ls := by
  simp [splitWs, hc, heq]

/-! ### Tokenizer lemmas -/

theorem splitWs_head_ws : ∀ l : List Char, startsWs l = true →
    (splitWs l).head? = some [] := by
  intro l
  induction l with
  | nil => intro h; simp [startsWs] at h
  | cons c rest ih =>
    intro h
    have hc : jsWhitespace c = true := by simpa [startsWs] using h
    cases hs : startsWs rest with
    | true => rw [splitWs_cons_ws_run c rest hc hs]; exact ih hs
    | false => rw [splitWs_cons_ws_new c rest hc hs]; rfl

theorem splitWs_head_eq : ∀ l : List Char,
    (splitWs l).head? = (l.splitOnP jsWhitespace).head? := by
  intro l
  induction l with
  | nil => rfl
  | cons c rest ih =>
    rw [List.splitOnP_cons]
    by_cases hc : jsWhitespace c = true
    · rw [if_pos hc]
      cases hs : startsWs rest with
      | true =>
        rw [splitWs_cons_ws_run c rest hc hs, splitWs_head_ws rest hs]
        rfl
      | false => rw [splitWs_cons_ws_new c rest hc hs]; rfl
    · rw [if_neg hc]
      have hcf : jsWhitespace c = false := by rwa [Bool.not_eq_true] at hc
      obtain ⟨l', ls, hws⟩ : ∃ l' ls, splitWs rest = l' :: ls := by
        cases h : splitWs rest with
        | nil => exact absurd h (splitWs_ne_nil rest)
        | cons a b => exact ⟨a, b, rfl⟩
      obtain ⟨h', t', hsp⟩ : ∃ h' t', rest.splitOnP jsWhitespace = h' :: t' := by
        cases h : rest.splitOnP jsWhitespace with
        | nil => exact absurd h (List.splitOnP_ne_nil _ rest)
        | cons a b => exact ⟨a, b, rfl⟩
      have hhead : l' = h' := by
        have := ih
        rw [hws, hsp] at this
        simpa using this
      rw [splitWs_cons_tok c rest l' ls hcf hws, hsp, hhead]
      rfl

theorem splitWs_filter_eq : ∀ l : List Char,
    (splitWs l).filter (· ≠ []) = (l.splitOnP jsWhitespace).filter (· ≠ []) := by
  intro l
  induction l with
  | nil => rfl
  | cons c rest ih =>
    rw [List.splitOnP_cons]
    by_cases hc : jsWhitespace c = true
    · rw [if_pos hc]
      have hr : ((([] : List Char) :: rest.splitOnP jsWhitespace).filter (· ≠ [])) =
          (rest.splitOnP jsWhitespace).filter (· ≠ []) := by simp
      rw [hr]
      cases hs : startsWs rest with
      | true => rw [splitWs_cons_ws_run c rest hc hs]; exact ih
      | false =>
        rw [splitWs_cons_ws_new c rest hc hs]
        simpa using ih
    · rw [if_neg hc]
      have hcf : jsWhitespace c = false := by rwa [Bool.not_eq_true] at hc
      obtain ⟨l', ls, hws⟩ : ∃ l' ls, splitWs rest = l' :: ls := by
        cases h : splitWs rest with
        | nil => exact absurd h (splitWs_ne_nil rest)
        | cons a b => exact ⟨a, b, rfl⟩
      obtain ⟨h', t', hsp⟩ : ∃ h' t', rest.splitOnP jsWhitespace = h' :: t' := by
        cases h : rest.splitOnP jsWhitespace with
        | nil => exact absurd h (List.splitOnP_ne_nil _ rest)
        | cons a b => exact ⟨a, b, rfl⟩
      have hhead : l' = h' := by
        have h2 := splitWs_head_eq rest
        rw [hws, hsp] at h2
        simpa using h2
      subst hhead
      rw [splitWs_cons_tok c rest l' ls hcf hws, hsp]
      have htails : ls.filter (· ≠ []) = t'.filter (· ≠ []) := by
        rw [hws, hsp] at ih
        by_cases hl' : l' = []
        · subst hl'
          simpa using ih
        · simp only [List.filter_cons] at ih
          rw [if_pos (by simpa using hl'), if_pos (by simpa using hl')] at ih
          exact List.tail_eq_of_cons_eq ih
      simp only [List.modifyHead, List.filter_cons]
      rw [if_pos (by simp), if_pos (by simp)]
      rw [htails]

theorem splitWs_tok_no_ws : ∀ l : List Char, ∀ tok ∈ splitWs l, ∀ c ∈ tok,
    jsWhitespace c = false := by
  intro l
  induction l with
  | nil =>
    intro tok htok c hc
    simp [splitWs_nil] at htok
    subst htok
    simp at hc
  | cons c rest ih =>
    intro tok htok d hd
    cases hc : jsWhitespace c with
    | true =>
      cases hs : startsWs rest with
      | true =>
        rw [splitWs_cons_ws_run c rest hc hs] at htok
        exact ih tok htok d hd
      | false =>
        rw [splitWs_cons_ws_new c rest hc hs] at htok
        rcases List.mem_cons.mp htok with h | h
        · subst h; simp at hd
        · exact ih tok h d hd
    | false =>
      obtain ⟨l', ls, hws⟩ : ∃ l' ls, splitWs rest = l' :: ls := by
        cases h : splitWs rest with
        | nil => exact absurd h (splitWs_ne_nil rest)
        | cons a b => exact ⟨a, b, rfl⟩
      rw [splitWs_cons_tok c rest l' ls hc hws] at htok
      rcases List.mem_cons.mp htok with h | h
      · subst h
        rcases List.mem_cons.mp hd with h | h
        · subst h; exact hc
        · exact ih l' (hws ▸ List.mem_cons_self l' ls) d h
      · exact ih tok (hws ▸ List.mem_cons_of_mem l' h) d hd

theorem splitWs_tail_ne_nil : ∀ l : List Char,
    (∀ d, l.getLast? = some d → jsWhitespace d = false) →
    ∀ tok ∈ (splitWs l).tail, tok ≠ [] := by
  intro l
  induction l with
  | nil => intro _ tok htok; simp [splitWs_nil] at htok
  | cons c rest ih =>
    intro hlast tok htok
    cases hc : jsWhitespace c with
    | true =>
      cases rest with
      | nil =>
        exact absurd (hlast c rfl) (by simp [hc])
      | cons d rest' =>
        have hlast' : ∀ e, (d :: rest').getLast? = some e → jsWhitespace e = false := by
          intro e he
          exact hlast e (by rwa [List.getLast?_cons_cons])
        cases hs : startsWs (d :: rest') with
        | true =>
          rw [splitWs_cons_ws_run c (d :: rest') hc hs] at htok
          exact ih hlast' tok htok
        | false =>
          rw [splitWs_cons_ws_new c (d :: rest') hc hs] at htok
          simp only [List.tail_cons] at htok
          have hd : jsWhitespace d = false := by simpa [startsWs] using hs
          obtain ⟨l', ls, hws⟩ : ∃ l' ls, splitWs rest' = l' :: ls := by
            cases h : splitWs rest' with
            | nil => exact absurd h (splitWs_ne_nil rest')
            | cons a b => exact ⟨a, b, rfl⟩
          rw [splitWs_cons_tok d rest' l' ls hd hws] at htok
          rcases List.mem_cons.mp htok with h | h
          · subst h; simp
          · refine ih hlast' tok ?_
            rw [splitWs_cons_tok d rest' l' ls hd hws]
            exact h
    | false =>
      obtain ⟨l', ls, hws⟩ : ∃ l' ls, splitWs rest = l' :: ls := by
        cases h : splitWs rest with
        | nil => exact absurd h (splitWs_ne_nil rest)
        | cons a b => exact ⟨a, b, rfl⟩
      rw [splitWs_cons_tok c rest l' ls hc hws] at htok
      simp only [List.tail_cons] at htok
      cases rest with
      | nil =>
        rw [splitWs_nil] at hws
        injection hws with h1 h2
        subst h2
        simp at htok
      | cons d rest' =>
        have hlast' : ∀ e, (d :: rest').getLast? = some e → jsWhitespace e = false := by
          intro e he
          exact hlast e (by rwa [List.getLast?_cons_cons])
        refine ih hlast' tok ?_
        rw [hws]
        exact htok

theorem splitWs_all_ne_nil (c : Char) (rest : List Char)
    (hc : jsWhitespace c = false)
    (hlast : ∀ d, (c :: rest).getLast? = some d → jsWhitespace d = false) :
    ∀ tok ∈ splitWs (c :: rest), tok ≠ [] := by
  intro tok htok
  obtain ⟨l', ls, hws⟩ : ∃ l' ls, splitWs rest = l' :: ls := by
    cases h : splitWs rest with
    | nil => exact absurd h (splitWs_ne_nil rest)
    | cons a b => exact ⟨a, b, rfl⟩
  rw [splitWs_cons_tok c rest l' ls hc hws] at htok
  rcases List.mem_cons.mp htok with h | h
  · subst h; simp
  · refine splitWs_tail_ne_nil (c :: rest) hlast tok ?_
    rw [splitWs_cons_tok c rest l' ls hc hws]
    simpa using h

/-! ### Trim lemmas -/

theorem dropWhile_head_false (p : Char → Bool) : ∀ (l : List Char) (c : Char)
    (rest : List Char), l.dropWhile p = c :: rest → p c = false := by
  intro l
  induction l with
  | nil => intro c r h; simp at h
  | cons d ds ih =>
    intro c r h
    rw [List.dropWhile_cons] at h
    by_cases hp : p d = true
    · rw [if_pos hp] at h
      exact ih c r h
    · rw [if_neg hp] at h
      injection h with h1 _
      subst h1
      rwa [Bool.not_eq_true] at hp

theorem jsTrim_head_not_ws (l : List Char) (c : Char) (rest : List Char)
    (h : jsTrim l = c :: rest) : jsWhitespace c = false := by
  have h' : (jsTrim l).head? = some c := by rw [h]; rfl
  rw [jsTrim, List.head?_reverse] at h'
  obtain ⟨t, ht⟩ :=
    List.dropWhile_suffix (l := (l.dropWhile jsWhitespace).reverse) jsWhitespace
  have hne : (l.dropWhile jsWhitespace).reverse.dropWhile jsWhitespace ≠ [] := by
    intro hh
    rw [hh] at h'
    simp at h'
  have h2 : ((l.dropWhile jsWhitespace).reverse).getLast? = some c := by
    rw [← ht, List.getLast?_append_of_ne_nil t hne]
    exact h'
  rw [List.getLast?_reverse] at h2
  cases hd : l.dropWhile jsWhitespace with
  | nil => rw [hd] at h2; simp at h2
  | cons e es =>
    rw [hd] at h2
    simp only [List.head?_cons, Option.some.injEq] at h2
    subst h2
    exact dropWhile_head_false jsWhitespace l e es hd

theorem jsTrim_last_not_ws (l : List Char) (d : Char)
    (h : (jsTrim l).getLast? = some d) : jsWhitespace d = false := by
  rw [jsTrim, List.getLast?_reverse] at h
  cases hd : (l.dropWhile jsWhitespace).reverse.dropWhile jsWhitespace with
  | nil => rw [hd] at h; simp at h
  | cons e es =>
    rw [hd] at h
    simp only [List.head?_cons, Option.some.injEq] at h
    subst h
    exact dropWhile_head_false jsWhitespace _ e es hd

/-! ### The source parser agrees with the spec parser -/

theorem splitWs_eq_specTokens (c : Char) (rest : List Char)
    (hc : jsWhitespace c = false)
    (hlast : ∀ d, (c :: rest).getLast? = some d → jsWhitespace d = false) :
    splitWs (c :: rest) = specTokens (c :: rest) := by
  have h1 := splitWs_all_ne_nil c rest hc hlast
  have h2 : (splitWs (c :: rest)).filter (· ≠ []) = splitWs (c :: rest) :=
    List.filter_eq_self.mpr (fun a ha => by simpa using h1 a ha)
  rw [specTokens, ← splitWs_filter_eq, h2]

theorem parseLine_eq_specParseLine (line : List Char) :
    parseLine line = specParseLine line := by
  cases ht : jsTrim line with
  | nil =>
    rw [parseLine, specParseLine, ht]
    simp [specTokens]
  | cons c rest =>
    have hc := jsTrim_head_not_ws line c rest ht
    have hlast : ∀ d, (c :: rest).getLast? = some d → jsWhitespace d = false :=
      fun d hd => jsTrim_last_not_ws line d (ht ▸ hd)
    rw [parseLine, specParseLine, ht, ← splitWs_eq_specTokens c rest hc hlast]
    simp

/-! ### Record invariants -/

theorem intercalate_cons_ne_nil (x : List Char) (xs : List (List Char))
    (hx : x ≠ []) : List.intercalate [' '] (x :: xs) ≠ [] := by
  cases xs with
  | nil => simpa [List.intercalate, List.intersperse] using hx
  | cons y ys =>
    simp [List.intercalate, List.intersperse]

theorem parseLine_inv (line : List Char) (r : Record)
    (h : parseLine line = some r) :
    r.topic ≠ "" ∧ (∀ c ∈ r.topic.data, jsWhitespace c = false) ∧
    r.payload ≠ "" := by
  rw [parseLine] at h
  cases ht : jsTrim line with
  | nil => rw [ht] at h; simp at h
  | cons c rest =>
    rw [ht] at h
    simp only [List.isEmpty_cons, Bool.false_eq_true, if_false] at h
    have hc := jsTrim_head_not_ws line c rest ht
    have hlast : ∀ d, (c :: rest).getLast? = some d → jsWhitespace d = false :=
      fun d hd => jsTrim_last_not_ws line d (ht ▸ hd)
    cases hsw : splitWs (c :: rest) with
    | nil => exact absurd hsw (splitWs_ne_nil _)
    | cons p0 ps =>
      cases ps with
      | nil => rw [hsw] at h; simp at h
      | cons p1 ps' =>
        rw [hsw] at h
        simp only [Option.some.injEq] at h
        subst h
        have hp0 : p0 ≠ [] :=
          splitWs_all_ne_nil c rest hc hlast p0 (hsw ▸ List.mem_cons_self _ _)
        have hp1 : p1 ≠ [] :=
          splitWs_all_ne_nil c rest hc hlast p1
            (hsw ▸ List.mem_cons_of_mem _ (List.mem_cons_self _ _))
        refine ⟨?_, ?_, ?_⟩
        · intro hh
          exact hp0 (congrArg String.data hh)
        · intro d hd
          exact splitWs_tok_no_ws (c :: rest) p0
            (hsw ▸ List.mem_cons_self _ _) d hd
        · intro hh
          exact intercalate_cons_ne_nil p1 ps' hp1 (congrArg String.data hh)

/-! ### Claim theorems: the poll-tick state machine -/

/-- C2: on a poll tick whose extracted snapshot is empty or exactly
string-equal to the previous retained snapshot, no lines are parsed, no
publish occurs, and `lastData` is left unchanged. -/
theorem C2_unchanged_snapshot_skipped (lastData text : String)
    (h : text = "" ∨ text = lastData) :
    pollTick lastData text = ⟨lastData, []⟩ ∧ tickTrace lastData text = [] := by
  have hb : (text = "" || text = lastData) = true := by
    rcases h with h | h <;> simp [h]
  exact ⟨by simp [pollTick, hb], by simp [tickTrace, hb]⟩

theorem C2_unchanged_snapshot_skipped_witness :
    pollTick "sensor/temperature 23.5 C" "sensor/temperature 23.5 C" =
      ⟨"sensor/temperature 23.5 C", []⟩ ∧
    tickTrace "sensor/temperature 23.5 C" "sensor/temperature 23.5 C" = [] :=
  C2_unchanged_snapshot_skipped "sensor/temperature 23.5 C"
    "sensor/temperature 23.5 C" (Or.inr rfl)

/-- C6: on a changed-snapshot tick, the assignment `lastData = text` is the
very first operation of the tick, strictly before any parse-driven publish;
hence even if publishing is cut short, the next tick seeing the same snapshot
performs no operation at all. -/
theorem C6_assign_before_publish (lastData text : String)
    (hne : text ≠ "") (hch : text ≠ lastData) :
    (tickTrace lastData text).head? = some (.assignLast text) ∧
    (∀ op ∈ (tickTrace lastData text).tail, ∃ r, op = TickOp.publish r) ∧
    (pollTick lastData text).newLast = text ∧
    tickTrace text text = [] ∧ pollTick text text = ⟨text, []⟩ := by
  refine ⟨by simp [tickTrace, hne, hch], ?_, by simp [pollTick, hne, hch],
    by simp [tickTrace], by simp [pollTick]⟩
  intro op hop
  simp only [tickTrace, hne, hch] at hop
  simp at hop
  obtain ⟨r, _, rfl⟩ := hop
  exact ⟨r, rfl⟩

theorem C6_assign_before_publish_witness :
    (tickTrace "" "t1 on").head? = some (.assignLast "t1 on") ∧
    (∀ op ∈ (tickTrace "" "t1 on").tail, ∃ r, op = TickOp.publish r) ∧
    (pollTick "" "t1 on").newLast = "t1 on" ∧
    tickTrace "t1 on" "t1 on" = [] ∧ pollTick "t1 on" "t1 on" = ⟨"t1 on", []⟩ :=
  C6_assign_before_publish "" "t1 on" (by decide) (by decide)

/-- C10: outbound deduplication is whole-snapshot, not per-line: on any tick
whose snapshot is nonempty and differs from the previous one, the full record
list of the new snapshot is published, including records the previous
snapshot had already produced. -/
theorem C10_whole_snapshot_dedup (lastData text : String)
    (hne : text ≠ "") (hch : text ≠ lastData) :
    (pollTick lastData text).published = parseSnapshot text ∧
    ∀ r, r ∈ parseSnapshot lastData → r ∈ parseSnapshot text →
      r ∈ (pollTick lastData text).published := by
  have h : (pollTick lastData text).published = parseSnapshot text := by
    simp [pollTick, hne, hch]
  exact ⟨h, fun r _ hr => h ▸ hr⟩

theorem C10_whole_snapshot_dedup_witness :
    (pollTick "a 1\nb 2" "a 1\nc 3").published = parseSnapshot "a 1\nc 3" ∧
    (⟨"a", "1"⟩ : Record) ∈ parseSnapshot "a 1\nb 2" ∧
    (⟨"a", "1"⟩ : Record) ∈ (pollTick "a 1\nb 2" "a 1\nc 3").published :=
  ⟨(C10_whole_snapshot_dedup "a 1\nb 2" "a 1\nc 3" (by decide) (by decide)).1,
   by decide,
   (C10_whole_snapshot_dedup "a 1\nb 2" "a 1\nc 3" (by decide) (by decide)).2
     ⟨"a", "1"⟩ (by decide) (by decide)⟩

/-! ### Claim theorems: newline conventions (C4) -/

/-- C4 counterexample: a lone carriage return is not a line boundary for
`split(/\r?\n/)`.  The snapshot `"a 1\rb 2"` stays a single line (so it parses
to one record whose payload swallows the second half), whereas the claim —
which asserts CR alone is a boundary like LF and CRLF — would require two
lines and two records, as the LF variant produces. -/
theorem C4_lone_cr_not_boundary :
    splitRN ('a' :: '\r' :: 'b' :: []) = [('a' :: '\r' :: 'b' :: [])] ∧
    (splitRN ('a' :: '\r' :: 'b' :: [])).length = 1 ∧
    splitRN ('a' :: '\n' :: 'b' :: []) = [['a'], ['b']] ∧
    parseSnapshot "a 1\rb 2" = [⟨"a", "1 b 2"⟩] ∧
    parseSnapshot "a 1\nb 2" = [⟨"a", "1"⟩, ⟨"b", "2"⟩] := by
  refine ⟨rfl, rfl, rfl, by decide, by decide⟩

/-- C4 amended: the parser splits snapshots into lines on LF and CRLF
boundaries only; a string without any LF is a single line, so a lone CR is
never a line boundary (it survives as in-line content, where the tokenizer
later treats it as whitespace). -/
theorem C4_newline_conventions :
    (∀ l : List Char, '\n' ∉ l → splitRN l = [l]) ∧
    (∀ a b : List Char, '\n' ∉ a → a.getLast? ≠ some '\r' →
      splitRN (a ++ '\n' :: b) = a :: splitRN b) ∧
    (∀ a b : List Char, '\n' ∉ a →
      splitRN (a ++ '\r' :: '\n' :: b) = a :: splitRN b) :=
  ⟨splitRN_no_lf, splitRN_append_lf, splitRN_append_crlf⟩

theorem C4_newline_conventions_witness :
    splitRN ('x' :: '\r' :: 'y' :: []) = [('x' :: '\r' :: 'y' :: [])] ∧
    splitRN (('x' :: []) ++ '\n' :: 'y' :: []) = ('x' :: []) :: splitRN ('y' :: []) ∧
    splitRN (('x' :: []) ++ '\r' :: '\n' :: 'y' :: []) =
      ('x' :: []) :: splitRN ('y' :: []) :=
  ⟨C4_newline_conventions.1 ('x' :: '\r' :: 'y' :: []) (by decide),
   C4_newline_conventions.2.1 ('x' :: []) ('y' :: []) (by decide) (by decide),
   C4_newline_conventions.2.2 ('x' :: []) ('y' :: []) (by decide)⟩

/-! ### Claim theorems: startup arguments (C7) -/

/-- C7: a missing URL argument makes the script print the usage line and exit
with status 1; with a URL present, a missing broker defaults to "localhost"
and a missing port to "1883", while supplied values are taken verbatim. -/
theorem C7_startup_arguments (argv : List String) :
    (argv.get? 2 = none →
      startup argv =
        .exit 1 "Usage: node mqtt-bridge_v2.js \"<tinkercad-url>\" [broker] [port]") ∧
    (∀ u, argv.get? 2 = some u → u ≠ "" → argv.get? 3 = none →
      startup argv = .run ⟨u, "localhost", "1883"⟩) ∧
    (∀ u b, argv.get? 2 = some u → u ≠ "" → argv.get? 3 = some b →
      argv.get? 4 = none → startup argv = .run ⟨u, b, "1883"⟩) ∧
    (∀ u b p, argv.get? 2 = some u → u ≠ "" → argv.get? 3 = some b →
      argv.get? 4 = some p → startup argv = .run ⟨u, b, p⟩) := by
  refine ⟨fun h2 => ?_, fun u h2 hu h3 => ?_, fun u b h2 hu h3 h4 => ?_,
    fun u b p h2 hu h3 h4 => ?_⟩
  · rw [List.get?_eq_getElem?] at h2
    simp [startup, h2]
  · have h4 : argv.get? 4 = none := by
      rw [List.get?_eq_none] at h3 ⊢
      omega
    rw [List.get?_eq_getElem?] at h2 h3 h4
    simp [startup, h2, h3, h4, hu]
  · rw [List.get?_eq_getElem?] at h2 h3 h4
    simp [startup, h2, h3, h4, hu]
  · rw [List.get?_eq_getElem?] at h2 h3 h4
    simp [startup, h2, h3, h4, hu]

theorem C7_startup_arguments_witness :
    startup ["node", "script.js"] =
      .exit 1 "Usage: node mqtt-bridge_v2.js \"<tinkercad-url>\" [broker] [port]" ∧
    startup ["node", "script.js", "https://tinkercad.example/things/c"] =
      .run ⟨"https://tinkercad.example/things/c", "localhost", "1883"⟩ ∧
    startup ["node", "script.js", "https://tinkercad.example/things/c", "10.0.0.5"] =
      .run ⟨"https://tinkercad.example/things/c", "10.0.0.5", "1883"⟩ ∧
    startup ["node", "script.js", "https://tinkercad.example/things/c", "10.0.0.5",
      "1884"] =
      .run ⟨"https://tinkercad.example/things/c", "10.0.0.5", "1884"⟩ :=
  ⟨(C7_startup_arguments ["node", "script.js"]).1 rfl,
   (C7_startup_arguments _).2.1 _ rfl (by decide) rfl,
   (C7_startup_arguments _).2.2.1 _ _ rfl (by decide) rfl rfl,
   (C7_startup_arguments _).2.2.2 _ _ _ rfl (by decide) rfl rfl⟩

/-! ### Claim theorems: line parsing (C1, C3, C5) -/

/-- C1: every retained line is parsed exactly as the spec states it: trim the
line; if the trim is empty or yields fewer than two whitespace-separated
tokens, no record; otherwise one record whose topic is the first token and
whose payload is the remaining tokens rejoined with single spaces — and the
snapshot's record list is the in-order filtering of the retained lines under
that per-line rule, witnessed on the spec's own example line. -/
theorem C1_line_parsing :
    (∀ line : List Char, parseLine line = specParseLine line) ∧
    (∀ text : String,
      parseSnapshot text = (retainedLines text).filterMap specParseLine) ∧
    parseLine "sensor/temperature 23.5 C".data =
      some ⟨"sensor/temperature", "23.5 C"⟩ := by
  refine ⟨parseLine_eq_specParseLine, fun text => ?_, by decide⟩
  rw [parseSnapshot]
  exact List.filterMap_congr (fun line _ => parseLine_eq_specParseLine line)

/-- C3: only the last ten lines of a snapshot are ever parsed: the record
list is computed from `slice(-10)` of the newline split, at most ten lines
are retained, two snapshots sharing the same retained tail parse identically
(so earlier lines can never influence the output, even on first sight), and
every emitted record arises from some retained line. -/
theorem C3_last_ten_lines_only :
    (∀ text : String, parseSnapshot text =
      ((splitRN text.data).drop ((splitRN text.data).length - 10)).filterMap
        parseLine) ∧
    (∀ text : String, (retainedLines text).length ≤ 10) ∧
    (∀ s1 s2 : String, retainedLines s1 = retainedLines s2 →
      parseSnapshot s1 = parseSnapshot s2) ∧
    (∀ text : String, ∀ r ∈ parseSnapshot text,
      ∃ line ∈ retainedLines text, parseLine line = some r) := by
  refine ⟨fun text => rfl, fun text => ?_, fun s1 s2 h => ?_, fun text r hr => ?_⟩
  · rw [retainedLines, List.length_drop]
    omega
  · rw [parseSnapshot, parseSnapshot, h]
  · exact List.mem_filterMap.mp hr

theorem C3_last_ten_lines_only_witness :
    parseSnapshot "z 0\na 1\nb 2\nc 3\nd 4\ne 5\nf 6\ng 7\nh 8\ni 9\nj 10" =
      parseSnapshot "a 1\nb 2\nc 3\nd 4\ne 5\nf 6\ng 7\nh 8\ni 9\nj 10" ∧
    (⟨"z", "0"⟩ : Record) ∉
      parseSnapshot "z 0\na 1\nb 2\nc 3\nd 4\ne 5\nf 6\ng 7\nh 8\ni 9\nj 10" :=
  ⟨C3_last_ten_lines_only.2.2.1
      "z 0\na 1\nb 2\nc 3\nd 4\ne 5\nf 6\ng 7\nh 8\ni 9\nj 10"
      "a 1\nb 2\nc 3\nd 4\ne 5\nf 6\ng 7\nh 8\ni 9\nj 10" (by decide),
   by decide⟩

/-- C5 counterexample: the parser never emits a record with an empty payload
— a line must yield at least two tokens and every token is nonempty, so the
claim's «for some input line a record with an empty payload is emitted» is
false. -/
theorem C5_no_empty_payload :
    ¬ ∃ (line : List Char) (t : String), parseLine line = some ⟨t, ""⟩ := by
  rintro ⟨line, t, h⟩
  exact (parseLine_inv line ⟨t, ""⟩ h).2.2 rfl

/-- C5 amended: every record emitted by the parser has a non-empty topic
containing no whitespace and a non-empty (possibly multi-word) payload; a
line failing to yield at least a topic token and a payload token is
discarded silently. -/
theorem C5_record_invariants :
    (∀ (line : List Char) (r : Record), parseLine line = some r →
      r.topic ≠ "" ∧ (∀ c ∈ r.topic.data, jsWhitespace c = false) ∧
      r.payload ≠ "") ∧
    parseLine "topiconly".data = none ∧
    parseLine "   ".data = none :=
  ⟨parseLine_inv, by decide, by decide⟩

theorem C5_record_invariants_witness :
    ("sensor/temperature" : String) ≠ "" ∧
    (∀ c ∈ ("sensor/temperature" : String).data, jsWhitespace c = false) ∧
    ("23.5 C" : String) ≠ "" :=
  C5_record_invariants.1 "sensor/temperature 23.5 C".data
    ⟨"sensor/temperature", "23.5 C"⟩ (by decide)

/-! ### Claim theorems: inbound event handling (C8, C9) -/

/-- C8: for every inbound event, a missing editor frame, a missing text-entry
element, or a thrown exception at any stage leaves a specific logged failure
result with no (further) injection steps performed; in every case the steps
performed are an initial segment of the single injection sequence (the event
is handled at most once, never retried), and the handler always returns one
of its enumerated outcomes (the catch turns throws into `errorCaught` instead
of terminating the process). -/
theorem C8_inbound_failures_dropped (page : Page) (msg : String) :
    (page.framesThrow = true →
      handleMessage page msg =
        ⟨[], none, none, [], .errorCaught,
          "⚠️ Error sending to Tinkercad serial:"⟩) ∧
    (page.framesThrow = false → findTargetFrame page.frames = none →
      handleMessage page msg =
        ⟨[], none, none, [], .frameNotFound,
          "⚠️ Could not locate the Tinkercad editor frame."⟩) ∧
    (∀ f, page.framesThrow = false → findTargetFrame page.frames = some f →
      f.queryThrow = true →
      handleMessage page msg =
        ⟨[], none, none, [], .errorCaught,
          "⚠️ Error sending to Tinkercad serial:"⟩) ∧
    (∀ f, page.framesThrow = false → findTargetFrame page.frames = some f →
      f.queryThrow = false → f.textInputs = [] →
      handleMessage page msg =
        ⟨[], none, none, [], .inputNotFound,
          "⚠️ Serial input box not found — please keep Serial Monitor open."⟩) ∧
    (∀ f k el, page.framesThrow = false → findTargetFrame page.frames = some f →
      f.queryThrow = false → f.textInputs.getLast? = some el → f.failAt = some k →
      (handleMessage page msg).outcome = .errorCaught ∧
      (handleMessage page msg).performed = (injectionSequence msg).take k.val) ∧
    (∃ j, (handleMessage page msg).performed = (injectionSequence msg).take j) := by
  refine ⟨fun h1 => ?_, fun h1 h2 => ?_, fun f h1 h2 h3 => ?_,
    fun f h1 h2 h3 h4 => ?_, fun f k el h1 h2 h3 hel h4 => ?_, ?_⟩
  · simp [handleMessage, h1]
  · simp [handleMessage, h1, h2]
  · simp [handleMessage, h1, h2, h3]
  · simp [handleMessage, h1, h2, h3, h4]
  · constructor <;> simp [handleMessage, h1, h2, h3, hel, h4]
  · by_cases h1 : page.framesThrow = true
    · exact ⟨0, by simp [handleMessage, h1]⟩
    · cases h2 : findTargetFrame page.frames with
      | none => exact ⟨0, by simp [handleMessage, h1, h2]⟩
      | some f =>
        by_cases h3 : f.queryThrow = true
        · exact ⟨0, by simp [handleMessage, h1, h2, h3]⟩
        · cases hel : f.textInputs.getLast? with
          | none => exact ⟨0, by simp [handleMessage, h1, h2, h3, hel]⟩
          | some el =>
            cases h4 : f.failAt with
            | some k =>
              exact ⟨k.val, by simp [handleMessage, h1, h2, h3, hel, h4]⟩
            | none =>
              exact ⟨4, by simp [handleMessage, h1, h2, h3, hel, h4,
                injectionSequence]⟩

theorem C8_inbound_failures_dropped_witness :
    handleMessage ⟨[], false⟩ "LED_ON" =
      ⟨[], none, none, [], .frameNotFound,
        "⚠️ Could not locate the Tinkercad editor frame."⟩ ∧
    handleMessage
      ⟨[⟨"https://www.tinkercad.com/editel/abc", [], false, none⟩], false⟩
      "LED_ON" =
      ⟨[], none, none, [], .inputNotFound,
        "⚠️ Serial input box not found — please keep Serial Monitor open."⟩ ∧
    (handleMessage
      ⟨[⟨"https://www.tinkercad.com/editel/abc", ["old"], false, some 2⟩], false⟩
      "LED_ON").outcome = .errorCaught ∧
    (handleMessage
      ⟨[⟨"https://www.tinkercad.com/editel/abc", ["old"], false, some 2⟩], false⟩
      "LED_ON").performed = (injectionSequence "LED_ON").take 2 := by
  refine ⟨(C8_inbound_failures_dropped ⟨[], false⟩ "LED_ON").2.1 rfl rfl,
    (C8_inbound_failures_dropped
      ⟨[⟨"https://www.tinkercad.com/editel/abc", [], false, none⟩], false⟩
      "LED_ON").2.2.2.1
      ⟨"https://www.tinkercad.com/editel/abc", [], false, none⟩ rfl rfl rfl rfl,
    ((C8_inbound_failures_dropped
      ⟨[⟨"https://www.tinkercad.com/editel/abc", ["old"], false, some 2⟩], false⟩
      "LED_ON").2.2.2.2.1
      ⟨"https://www.tinkercad.com/editel/abc", ["old"], false, some 2⟩ 2 "old"
      rfl rfl rfl rfl rfl).1,
    ((C8_inbound_failures_dropped
      ⟨[⟨"https://www.tinkercad.com/editel/abc", ["old"], false, some 2⟩], false⟩
      "LED_ON").2.2.2.2.1
      ⟨"https://www.tinkercad.com/editel/abc", ["old"], false, some 2⟩ 2 "old"
      rfl rfl rfl rfl rfl).2⟩

/-- C9: when an editor frame exists, at least one text-entry element exists,
and no step throws, the handler targets the last text input in document order
and performs exactly triple-click, backspace, type, enter; starting from any
prior element state, the first three steps leave the element holding exactly
the decoded payload, and the final enter submits exactly that payload. -/
theorem C9_injection_replaces_content (page : Page) (msg : String) (f : Frame)
    (el : String) (h1 : page.framesThrow = false)
    (h2 : findTargetFrame page.frames = some f) (h3 : f.queryThrow = false)
    (h4 : f.failAt = none) (hel : f.textInputs.getLast? = some el) :
    handleMessage page msg =
      ⟨injectionSequence msg, some (f.textInputs.length - 1), some ⟨msg, false⟩,
        [msg], .sent, "↩ Sent to Tinkercad Serial: " ++ msg⟩ ∧
    (∀ st : ElemState,
      runActions st (injectionSequence msg) = (⟨msg, false⟩, [msg])) ∧
    (∀ st : ElemState,
      (runActions st [.tripleClick, .backspace, .typeText msg]).1 =
        ⟨msg, false⟩) := by
  have hrun : ∀ st : ElemState,
      runActions st (injectionSequence msg) = (⟨msg, false⟩, [msg]) := by
    intro st
    simp [injectionSequence, runActions, stepAction]
  have hrun3 : ∀ st : ElemState,
      (runActions st [.tripleClick, .backspace, .typeText msg]).1 =
        ⟨msg, false⟩ := by
    intro st
    simp [runActions, stepAction]
  refine ⟨?_, hrun, hrun3⟩
  simp [handleMessage, h1, h2, h3, h4, hel, hrun]

theorem C9_injection_replaces_content_witness :
    handleMessage
      ⟨[⟨"https://www.tinkercad.com/editel/abc", ["chat box", "serial input"],
        false, none⟩], false⟩ "LED_ON" =
      ⟨injectionSequence "LED_ON", some 1, some ⟨"LED_ON", false⟩, ["LED_ON"],
        .sent, "↩ Sent to Tinkercad Serial: LED_ON"⟩ :=
  (C9_injection_replaces_content
    ⟨[⟨"https://www.tinkercad.com/editel/abc", ["chat box", "serial input"],
      false, none⟩], false⟩ "LED_ON"
    ⟨"https://www.tinkercad.com/editel/abc", ["chat box", "serial input"],
      false, none⟩
    "serial input" rfl rfl rfl rfl rfl).1

end MqttBridge
